import Mathlib

/-!
Shallow embedding of the matterbridge gateway router core:
the event gating, message dispatch, media-server upload handling,
nick extraction, the Matrix rate-limit retry harness, the Matrix
nickname cache, and the failure-event reconnect scan.

External collaborators (the S3 client round trip, the Go regexp
engine, crypto SHA-1, the per-destination send) are modelled as
explicit function parameters; everything the repository itself
computes is translated directly from the Go source.
-/

namespace Matterbridge

/-- Event name constants of bridge/config (string values per spec section 3). -/
def EventJoinLeave : String := "join-leave"

/-- Event constant for topic changes. -/
def EventTopicChange : String := "topic-change"

/-- Event constant for adapter failure. -/
def EventFailure : String := "failure"

/-- Extra key for attachments that exceeded the download size cap. -/
def EventFileFailureSize : String := "file-failure-size"

/-- Event constant for typing indications. -/
def EventUserTyping : String := "user-typing"

/-- Event constant for avatar byte blobs. -/
def EventAvatarDownload : String := "avatar-download"

/-- config.FileInfo: one attachment of an envelope. `data` is the byte list
behind the Go `*[]byte`. -/
structure FileInfo where
  name : String
  data : List Nat
  comment : String := ""
  url : String := ""
  size : Nat := 0
  avatar : Bool := false
  sha : String := ""
deriving Repr, DecidableEq

/-- The parts of the `Extra` map (`map[string][]interface{}`) the router reads:
the `"file"` list and the length of the `"file-failure-size"` list. -/
structure Extra where
  file : List FileInfo := []
  fileFailureSize : Nat := 0
deriving Repr, DecidableEq

/-- config.Message, the envelope. `extra = none` models a nil Extra map. -/
structure Message where
  text : String := ""
  username : String := ""
  channel : String := ""
  account : String := ""
  protocol : String := ""
  event : String := ""
  id : String := ""
  parentID : String := ""
  avatar : String := ""
  extra : Option Extra := none
deriving Repr, DecidableEq

/-- A destination bridge as the router sees it: its protocol and account plus
the per-destination options read through `GetBool`. -/
structure Bridge where
  protocol : String := ""
  account : String := ""
  showJoinPart : Bool := false
  showTopicChange : Bool := false
  syncTopic : Bool := false
  preserveThreading : Bool := false
deriving Repr, DecidableEq

/-- Gateway.ignoreEvent (gateway/handlers.go): true when the event must be
skipped for the given destination bridge. -/
def ignoreEvent (event : String) (dest : Bridge) : Bool :=
  if event == EventAvatarDownload then
    dest.protocol != "mattermost" && dest.protocol != "telegram" && dest.protocol != "xmpp"
  else if event == EventJoinLeave then
    !dest.showJoinPart
  else if event == EventTopicChange then
    !dest.showTopicChange && !dest.syncTopic
  else
    false

/-- C5: ignoreEvent returns true exactly for: avatar-download to a protocol
outside mattermost/telegram/xmpp; join-leave without ShowJoinPart;
topic-change without ShowTopicChange and without SyncTopic. -/
theorem C5_ignoreEvent_characterization (event : String) (dest : Bridge) :
    ignoreEvent event dest = true ↔
      ((event = EventAvatarDownload ∧ dest.protocol ≠ "mattermost" ∧
          dest.protocol ≠ "telegram" ∧ dest.protocol ≠ "xmpp") ∨
       (event = EventJoinLeave ∧ dest.showJoinPart = false) ∨
       (event = EventTopicChange ∧ dest.showTopicChange = false ∧ dest.syncTopic = false)) := by
  unfold ignoreEvent
  split_ifs with h1 h2 h3 <;>
    simp_all [EventAvatarDownload, EventJoinLeave, EventTopicChange,
      Bool.and_eq_true, Bool.not_eq_true, and_assoc]

/-- The static typing-capability table. Built by the bridgemap init functions:
the slack and discord entries are the only writes in the default build. -/
def UserTypingSupport : List String := ["slack", "discord"]

/-- config.ChannelInfo as used by the send loop: the channel name and ID. -/
structure ChannelInfo where
  name : String := ""
  id : String := ""
deriving Repr, DecidableEq

/-- BrMsgID: the record appended for every non-empty message ID returned by a
send. In Go it holds the destination bridge pointer; here its account. -/
structure BrMsgID where
  destAccount : String
  canonicalID : String
  channelID : String
deriving Repr, DecidableEq

/-- The send loop of Gateway.handleMessage over the destination channels.
`send ch parent` stands for gw.SendMessage(rmsg, dest, ch, parent); errors are
logged and skipped, empty IDs are skipped. Returns the channels for which a
send was attempted and the collected BrMsgIDs, in loop order. -/
def sendLoop (send : ChannelInfo → String → Except String String) (dest : Bridge)
    (canonicalParent : String) : List ChannelInfo → List ChannelInfo × List BrMsgID
  | [] => ([], [])
  | ch :: rest =>
    let tail := sendLoop send dest canonicalParent rest
    match send ch canonicalParent with
    | .error _ => (ch :: tail.1, tail.2)
    | .ok msgID =>
      if msgID == "" then (ch :: tail.1, tail.2)
      else (ch :: tail.1, ⟨dest.account, dest.protocol ++ " " ++ msgID, ch.id⟩ :: tail.2)

/-- Gateway.handleMessage (gateway/handlers.go). The parts of the gateway that
live outside src (getDestChannel, SendMessage, FindCanonicalMsgID) enter as the
parameters `destChannels`, `send` and `findCanonical`. Returns the channels a
send was attempted for together with the produced message IDs; Go returns only
the latter (nil on the early returns). -/
def handleMessage (send : ChannelInfo → String → Except String String)
    (destChannels : List ChannelInfo) (findCanonical : String → String → String)
    (rmsg : Message) (dest : Bridge) : List ChannelInfo × List BrMsgID :=
  if rmsg.event == EventUserTyping && !(UserTypingSupport.contains dest.protocol) then
    ([], [])
  else if (match rmsg.extra with
      | some e => e.fileFailureSize != 0
      | none => false) && rmsg.text == "" then
    ([], [])
  else if ignoreEvent rmsg.event dest then
    ([], [])
  else if rmsg.channel == "" && rmsg.event != EventJoinLeave then
    ([], [])
  else
    let canonicalParent :=
      if rmsg.parentID != "" && dest.preserveThreading then
        findCanonical rmsg.protocol rmsg.parentID
      else ""
    sendLoop send dest canonicalParent destChannels

/-- C3 counterexample: a user-typing envelope to a discord destination, whose
protocol is in UserTypingSupport, still produces no send and no message IDs
when its channel is empty, so the send happens to a typing-capable protocol
is not an if-and-only-if. -/
theorem C3_counterexample :
    "discord" ∈ UserTypingSupport ∧
      handleMessage (fun _ _ => Except.ok "id1") [⟨"chan", "cid"⟩] (fun _ _ => "")
        { event := EventUserTyping, channel := "" } { protocol := "discord" } = ([], []) := by
  constructor
  · decide
  · rfl

/-- C3 amended: the typing table contains exactly slack and discord; a
user-typing envelope to a destination whose protocol is not in the table is
returned with no send and no message IDs; and for a protocol in the table the
typing gate itself does not drop the envelope: with an empty file-failure-size
list and a non-empty channel the send loop runs over the destination channels. -/
theorem C3_userTyping_gate (send : ChannelInfo → String → Except String String)
    (destChannels : List ChannelInfo) (findCanonical : String → String → String)
    (rmsg : Message) (dest : Bridge) (htyping : rmsg.event = EventUserTyping) :
    UserTypingSupport = ["slack", "discord"] ∧
      (dest.protocol ∉ UserTypingSupport →
        handleMessage send destChannels findCanonical rmsg dest = ([], [])) ∧
      (dest.protocol ∈ UserTypingSupport →
        rmsg.extra = none →
        rmsg.channel ≠ "" →
        handleMessage send destChannels findCanonical rmsg dest =
          sendLoop send dest
            (if rmsg.parentID != "" && dest.preserveThreading then
              findCanonical rmsg.protocol rmsg.parentID
            else "") destChannels) := by
  refine ⟨rfl, ?_, ?_⟩
  · intro hns
    unfold handleMessage
    simp [htyping]
    intro hmem
    exact absurd hmem hns
  · intro hs hextra hchan
    unfold handleMessage
    have hjl : rmsg.event ≠ EventJoinLeave := by
      simp [htyping, EventUserTyping, EventJoinLeave]
    have hig : ignoreEvent EventUserTyping dest = false := by
      simp [ignoreEvent, EventUserTyping, EventAvatarDownload,
        EventJoinLeave, EventTopicChange]
    simp [htyping, hs, hextra, hig, hchan, hjl]

/-- C3 witness: the amended theorem applied to a discord destination with a
concrete channel, and to an irc destination. -/
theorem C3_userTyping_gate_witness :
    handleMessage (fun _ _ => Except.ok "id1") [⟨"chan", "cid"⟩] (fun _ _ => "")
      { event := EventUserTyping, channel := "general" } { protocol := "irc" } = ([], []) := by
  exact (C3_userTyping_gate (fun _ _ => Except.ok "id1") [⟨"chan", "cid"⟩] (fun _ _ => "")
    { event := EventUserTyping, channel := "general" } { protocol := "irc" } rfl).2.1
    (by decide)

/-- C7: an envelope whose file-failure-size list is non-empty and whose text is
empty is dropped by handleMessage with no send; with non-empty text that check
does not fire, and a plain message on a non-empty channel reaches the send
loop. -/
theorem C7_fileFailureSize_drop (send : ChannelInfo → String → Except String String)
    (destChannels : List ChannelInfo) (findCanonical : String → String → String)
    (rmsg : Message) (dest : Bridge) (e : Extra)
    (hextra : rmsg.extra = some e) (hffs : e.fileFailureSize ≠ 0) :
    (rmsg.text = "" → handleMessage send destChannels findCanonical rmsg dest = ([], [])) ∧
      (rmsg.text ≠ "" → rmsg.event = "" → rmsg.channel ≠ "" →
        handleMessage send destChannels findCanonical rmsg dest =
          sendLoop send dest
            (if rmsg.parentID != "" && dest.preserveThreading then
              findCanonical rmsg.protocol rmsg.parentID
            else "") destChannels) := by
  constructor
  · intro htext
    unfold handleMessage
    simp [hextra, hffs, htext, EventUserTyping, EventJoinLeave]
  · intro htext hevent hchan
    unfold handleMessage
    have hig : ignoreEvent "" dest = false := by
      simp [ignoreEvent, EventAvatarDownload, EventJoinLeave, EventTopicChange]
    simp [hextra, hffs, htext, hevent, hchan, hig, EventUserTyping, EventJoinLeave]

/-- C7 witness: a concrete envelope with one file-failure-size entry and empty
text is dropped. -/
theorem C7_fileFailureSize_drop_witness :
    handleMessage (fun _ _ => Except.ok "id1") [⟨"chan", "cid"⟩] (fun _ _ => "")
      { text := "", channel := "general", extra := some { fileFailureSize := 1 } }
      { protocol := "irc" } = ([], []) := by
  exact (C7_fileFailureSize_drop (fun _ _ => Except.ok "id1") [⟨"chan", "cid"⟩] (fun _ _ => "")
    { text := "", channel := "general", extra := some { fileFailureSize := 1 } }
    { protocol := "irc" } { fileFailureSize := 1 } rfl (by decide)).1 rfl

/-- ASCII alphanumeric test, the character class a-zA-Z0-9 of the
regexp in Gateway.handleFiles. -/
def isAlnumAscii (c : Char) : Bool :=
  (Char.ofNat 97 ≤ c && c ≤ Char.ofNat 122) ||
  (Char.ofNat 65 ≤ c && c ≤ Char.ofNat 90) ||
  (Char.ofNat 48 ≤ c && c ≤ Char.ofNat 57)

/-- ReplaceAllString of the literal pattern, one non-alphanumeric class with +,
by a single underscore: each maximal run of non-alphanumeric characters is
replaced by one underscore. The flag records whether the previous character
belonged to a run already replaced. -/
def collapseRunsAux : Bool → List Char → List Char
  | _, [] => []
  | inRun, c :: rest =>
    if isAlnumAscii c then c :: collapseRunsAux false rest
    else if inRun then collapseRunsAux true rest
    else '_' :: collapseRunsAux true rest

/-- Each maximal run of non-alphanumeric characters becomes one underscore. -/
def collapseRuns (l : List Char) : List Char := collapseRunsAux false l

/-- String form of collapseRuns. -/
def normalizeNonAlnum (s : String) : String := ⟨collapseRuns s.data⟩

/-- Length of the extension in the reversed character list: the distance to the
first dot seen from the end, stopping at a slash, as filepath.Ext does. -/
def extLenRev : List Char → Option Nat
  | [] => none
  | c :: rest =>
    if c = '/' then none
    else if c = '.' then some 1
    else (extLenRev rest).map (· + 1)

/-- filepath.Ext: the suffix beginning at the final dot in the final
slash-separated element; empty when there is no dot. -/
def filepathExt (s : String) : String :=
  match extLenRev s.data.reverse with
  | none => ""
  | some n => ⟨(s.data.reverse.take n).reverse⟩

/-- The name rewrite of Gateway.handleFiles: strip the extension, replace every
run of non-alphanumeric characters by one underscore, reattach the extension. -/
def normalizeFileName (s : String) : String :=
  let ext := filepathExt s
  normalizeNonAlnum ⟨s.data.take (s.data.length - ext.data.length)⟩ ++ ext

/-- Split a character list on slashes; adjacent slashes give empty segments,
as strings.Split does. -/
def splitOnSlash : List Char → List (List Char)
  | [] => [[]]
  | c :: rest =>
    if c = '/' then [] :: splitOnSlash rest
    else
      match splitOnSlash rest with
      | [] => [[c]]
      | grp :: gs => (c :: grp) :: gs

/-- Join segments with single slashes. -/
def joinSlash : List (List Char) → List Char
  | [] => []
  | [g] => g
  | g :: gs => g ++ '/' :: joinSlash gs

/-- One step of Go path.Clean over the slash-separated segments, on a stack
held in reverse order. -/
def cleanPush (rooted : Bool) (stack : List (List Char)) (seg : List Char) : List (List Char) :=
  if seg = [] || seg = ['.'] then stack
  else if seg = ['.', '.'] then
    match stack with
    | [] => if rooted then [] else [seg]
    | top :: rest => if top = ['.', '.'] then seg :: stack else rest
  else seg :: stack

/-- Go path.Clean: resolve empty, dot and dotdot segments. -/
def pathClean (p : String) : String :=
  if p.data = [] then "." else
  let rooted := p.data.head? = some '/'
  let stack := (splitOnSlash p.data).foldl (cleanPush rooted) []
  let body := joinSlash stack.reverse
  if rooted then (if body = [] then "/" else ⟨'/' :: body⟩)
  else (if body = [] then "." else ⟨body⟩)

/-- Go path.Join: drop empty elements, join with slashes, clean; empty when
every element is empty. -/
def pathJoin (elems : List String) : String :=
  let ne := elems.filter (fun e => e.data ≠ [])
  if ne.isEmpty then "" else pathClean ⟨joinSlash (ne.map String.data)⟩

/-- s3MediaServer (gateway/mediaserver.go): the configuration fields plus the
external S3 client, modelled by the outcome function `putObject` of the
PutObject round trip and by `presignGet` for the presign client. `presign`
false models a nil presignS3Client. -/
structure S3MediaServer where
  bucket : String
  uploadPrefix : String
  httpDownloadPrefix : String
  presign : Bool := false
  putObject : String → String → List Nat → Bool
  presignGet : String → String → Except String String := fun _ _ => Except.error ""

/-- The object key of s3MediaServer.handleFilesUpload:
path.Join(uploadPrefix, sha1sum, fi.Name). `sha1hex8` stands for the first
eight hex characters of the Go crypto SHA-1 of the bytes. -/
def s3ObjectKey (sha1hex8 : List Nat → String) (h : S3MediaServer) (fi : FileInfo) : String :=
  pathJoin [h.uploadPrefix, sha1hex8 fi.data, fi.name]

/-- s3MediaServer.handleFilesUpload: PutObject under the computed key; on
success the download URL is the presigned GET URL when presign is enabled,
otherwise httpDownloadPrefix/key. -/
def S3MediaServer.handleFilesUpload (sha1hex8 : List Nat → String) (h : S3MediaServer)
    (fi : FileInfo) : Except String String :=
  let key := s3ObjectKey sha1hex8 h fi
  if h.putObject h.bucket key fi.data then
    if h.presign then h.presignGet h.bucket key
    else Except.ok (h.httpDownloadPrefix ++ "/" ++ key)
  else Except.error "mediaserver s3 PutObject failed"

/-- The loop body of Gateway.handleFiles for one attachment: a copy of the
record gets the normalized name, the SHA-1 prefix of the bytes is taken, the
copy is uploaded; on error the stored record is left untouched, on success the
stored record (with its original name) gets the URL and the SHA. -/
def handleFilesStep (sha1hex8 : List Nat → String)
    (upload : FileInfo → Except String String) (f : FileInfo) : FileInfo :=
  let fi : FileInfo := { f with name := normalizeFileName f.name }
  let sha1sum := sha1hex8 fi.data
  match upload fi with
  | .error _ => f
  | .ok downloadURL => { f with url := downloadURL, sha := sha1sum }

/-- Gateway.handleFiles: returns the envelope unchanged when no media server is
configured, the Extra map is nil, or there are no files; otherwise rewrites
each attachment by handleFilesStep. -/
def handleFiles (sha1hex8 : List Nat → String)
    (mediaServer : Option (FileInfo → Except String String)) (msg : Message) : Message :=
  match mediaServer, msg.extra with
  | none, _ => msg
  | some _, none => msg
  | some upload, some e =>
    if e.file.isEmpty then msg
    else { msg with extra := some { e with file := e.file.map (handleFilesStep sha1hex8 upload) } }

/-- On upload success the stored record gets exactly the URL and the SHA. -/
theorem handleFilesStep_ok (sha1hex8 : List Nat → String)
    (upload : FileInfo → Except String String) (f : FileInfo) (u : String)
    (h : upload { f with name := normalizeFileName f.name } = .ok u) :
    handleFilesStep sha1hex8 upload f = { f with url := u, sha := sha1hex8 f.data } := by
  unfold handleFilesStep
  simp [h]

/-- On upload failure the stored record is left untouched. -/
theorem handleFilesStep_error (sha1hex8 : List Nat → String)
    (upload : FileInfo → Except String String) (f : FileInfo) (s : String)
    (h : upload { f with name := normalizeFileName f.name } = .error s) :
    handleFilesStep sha1hex8 upload f = f := by
  unfold handleFilesStep
  simp [h]

/-- Pointwise facts lift to Forall₂ against a mapped list. -/
theorem forall2_map_self {α β : Type} (R : α → β → Prop) (h : α → β)
    (hpt : ∀ x, R x (h x)) : ∀ l : List α, List.Forall₂ R l (l.map h)
  | [] => List.Forall₂.nil
  | x :: rest => List.Forall₂.cons (hpt x) (forall2_map_self R h hpt rest)

/-- C1: with the S3 media server on bucket m, empty upload prefix, download
prefix https://cdn/m and presign disabled, an attachment named "a b.jpg" with
bytes B is renamed to "a_b.jpg", uploaded under the key sha1-prefix/a_b.jpg
(so "deadbeef/a_b.jpg" when the prefix is deadbeef), and on PutObject success
the stored record gets url https://cdn/m/deadbeef/a_b.jpg and sha deadbeef. -/
theorem C1_s3_upload (sha1hex8 : List Nat → String)
    (put : String → String → List Nat → Bool) (pres : String → String → Except String String)
    (B : List Nat) (f : FileInfo) (msg : Message) (e : Extra)
    (hname : f.name = "a b.jpg") (hdata : f.data = B)
    (hsha : sha1hex8 B = "deadbeef")
    (hput : put "m" "deadbeef/a_b.jpg" B = true)
    (hextra : msg.extra = some e) (hfile : e.file = [f]) :
    normalizeFileName "a b.jpg" = "a_b.jpg" ∧
    s3ObjectKey sha1hex8
      { bucket := "m", uploadPrefix := "", httpDownloadPrefix := "https://cdn/m",
        presign := false, putObject := put, presignGet := pres }
      { f with name := normalizeFileName f.name } = "deadbeef/a_b.jpg" ∧
    handleFiles sha1hex8
      (some (S3MediaServer.handleFilesUpload sha1hex8
        { bucket := "m", uploadPrefix := "", httpDownloadPrefix := "https://cdn/m",
          presign := false, putObject := put, presignGet := pres })) msg =
      { msg with extra := some { e with
          file := [{ f with url := "https://cdn/m/deadbeef/a_b.jpg", sha := "deadbeef" }] } } := by
  have hnorm : normalizeFileName "a b.jpg" = "a_b.jpg" := by decide
  have hjoin : pathJoin ["", "deadbeef", "a_b.jpg"] = "deadbeef/a_b.jpg" := by decide
  have hkey : s3ObjectKey sha1hex8
      { bucket := "m", uploadPrefix := "", httpDownloadPrefix := "https://cdn/m",
        presign := false, putObject := put, presignGet := pres }
      { f with name := normalizeFileName f.name } = "deadbeef/a_b.jpg" := by
    unfold s3ObjectKey
    simp only [hname, hnorm, hdata, hsha]
    exact hjoin
  refine ⟨hnorm, hkey, ?_⟩
  have hupload : S3MediaServer.handleFilesUpload sha1hex8
      { bucket := "m", uploadPrefix := "", httpDownloadPrefix := "https://cdn/m",
        presign := false, putObject := put, presignGet := pres }
      { f with name := normalizeFileName f.name } =
      .ok "https://cdn/m/deadbeef/a_b.jpg" := by
    unfold S3MediaServer.handleFilesUpload
    rw [hkey]
    simp only [hdata, hput]
    rfl
  have hstep := handleFilesStep_ok sha1hex8 _ f _ hupload
  unfold handleFiles
  rw [hextra]
  simp only [hfile, List.isEmpty_cons, List.map_cons, List.map_nil, hstep, hdata, hsha]
  rfl

/-- C1 witness: the theorem applied to a concrete byte list, put outcome and
hash function. -/
theorem C1_s3_upload_witness :
    handleFiles (fun _ => "deadbeef")
      (some (S3MediaServer.handleFilesUpload (fun _ => "deadbeef")
        { bucket := "m", uploadPrefix := "", httpDownloadPrefix := "https://cdn/m",
          presign := false, putObject := fun _ _ _ => true,
          presignGet := fun _ _ => Except.error "" }))
      { text := "hi", extra := some { file := [{ name := "a b.jpg", data := [7, 7] }] } } =
      { text := "hi", extra := some { file :=
          [{ name := "a b.jpg", data := [7, 7],
             url := "https://cdn/m/deadbeef/a_b.jpg", sha := "deadbeef" }] } } :=
  (C1_s3_upload (fun _ => "deadbeef") (fun _ _ _ => true) (fun _ _ => Except.error "")
    [7, 7] { name := "a b.jpg", data := [7, 7] }
    { text := "hi", extra := some { file := [{ name := "a b.jpg", data := [7, 7] }] } }
    { file := [{ name := "a b.jpg", data := [7, 7] }] }
    rfl rfl rfl rfl rfl rfl).2.2

/-- C8: handleFiles with a configured media server only ever fills url and sha
on each attachment; name (in its original form), data, comment, size and the
rest of the envelope keep their prior values. -/
theorem C8_frame (sha1hex8 : List Nat → String)
    (upload : FileInfo → Except String String) (msg : Message) (e : Extra)
    (hextra : msg.extra = some e) :
    ∃ files2,
      handleFiles sha1hex8 (some upload) msg =
        { msg with extra := some { e with file := files2 } } ∧
      List.Forall₂ (fun f g => g.name = f.name ∧
        ∃ u s, g = { f with url := u, sha := s }) e.file files2 := by
  have hpt : ∀ f : FileInfo,
      (handleFilesStep sha1hex8 upload f).name = f.name ∧
      ∃ u s, handleFilesStep sha1hex8 upload f = { f with url := u, sha := s } := by
    intro f
    cases h : upload { f with name := normalizeFileName f.name } with
    | error s =>
      rw [handleFilesStep_error sha1hex8 upload f s h]
      exact ⟨rfl, f.url, f.sha, rfl⟩
    | ok u =>
      rw [handleFilesStep_ok sha1hex8 upload f u h]
      exact ⟨rfl, u, sha1hex8 f.data, rfl⟩
  by_cases hempty : e.file.isEmpty
  · refine ⟨e.file, ?_, ?_⟩
    · unfold handleFiles
      rw [hextra]
      simp only [hempty, if_true]
      rw [← hextra]
    · rw [List.isEmpty_iff.mp hempty]
      exact List.Forall₂.nil
  · refine ⟨e.file.map (handleFilesStep sha1hex8 upload), ?_, ?_⟩
    · unfold handleFiles
      rw [hextra]
      rw [Bool.not_eq_true] at hempty
      simp [hempty]
    · exact forall2_map_self
        (fun f g => g.name = f.name ∧ ∃ u s, g = { f with url := u, sha := s })
        (handleFilesStep sha1hex8 upload) hpt e.file

/-- C8 witness: the theorem applied to a concrete envelope with one attachment
and an always-succeeding uploader. -/
theorem C8_frame_witness :
    ∃ files2,
      handleFiles (fun _ => "cafe0123") (some (fun _ => Except.ok "http://dl/x"))
        { text := "t", extra := some { file := [{ name := "x y.png", data := [3] }] } } =
        { text := "t", extra := some { file := files2 } } ∧
      List.Forall₂ (fun (f g : FileInfo) => g.name = f.name ∧
        ∃ u s, g = { f with url := u, sha := s })
        [{ name := "x y.png", data := [3] }] files2 :=
  C8_frame (fun _ => "cafe0123") (fun _ => Except.ok "http://dl/x")
    { text := "t", extra := some { file := [{ name := "x y.png", data := [3] }] } }
    { file := [{ name := "x y.png", data := [3] }] } rfl

/-- An uploader that fails for the first sample attachment and succeeds for
every other file. -/
def uploadC6 : FileInfo → Except String String :=
  fun fi =>
    if fi.name == "bad.txt" then Except.error "mediaserver s3 PutObject failed"
    else Except.ok ("http://dl/" ++ fi.name)

/-- Sample attachment whose upload fails. -/
def fbadC6 : FileInfo := { name := "bad.txt", data := [1] }

/-- Sample attachment whose upload succeeds. -/
def fgoodC6 : FileInfo := { name := "good.txt", data := [2] }

/-- Sample envelope with both attachments. -/
def msgC6 : Message := { text := "hello", extra := some { file := [fbadC6, fgoodC6] } }

/-- C6 counterexample: when the upload of the first of two attachments fails,
handleFiles keeps the failed attachment in the extra file list unchanged
(it is not dropped); the other attachment gets its URL and SHA and the text is
untouched. -/
theorem C6_counterexample :
    handleFiles (fun _ => "00000000") (some uploadC6) msgC6 =
      { text := "hello", extra := some { file :=
          [fbadC6, { fgoodC6 with url := "http://dl/good.txt", sha := "00000000" }] } } ∧
    fbadC6 ∈
      (handleFiles (fun _ => "00000000") (some uploadC6) msgC6).extra.elim [] Extra.file := by
  constructor
  · decide
  · decide

/-- C6 amended: when the media-server upload of one attachment fails, that
attachment is left in place in extra file, unchanged (its url and sha stay as
they were), while each attachment whose upload succeeds gets its url and sha
filled, and the envelope text is unchanged. -/
theorem C6_upload_failure_isolation (sha1hex8 : List Nat → String)
    (upload : FileInfo → Except String String) (msg : Message) (e : Extra)
    (hextra : msg.extra = some e) :
    ∃ files2,
      handleFiles sha1hex8 (some upload) msg =
        { msg with extra := some { e with file := files2 } } ∧
      (handleFiles sha1hex8 (some upload) msg).text = msg.text ∧
      List.Forall₂ (fun (f g : FileInfo) =>
        (∀ s, upload { f with name := normalizeFileName f.name } = .error s → g = f) ∧
        (∀ u, upload { f with name := normalizeFileName f.name } = .ok u →
          g = { f with url := u, sha := sha1hex8 f.data })) e.file files2 := by
  have hpt : ∀ f : FileInfo,
      (∀ s, upload { f with name := normalizeFileName f.name } = .error s →
        handleFilesStep sha1hex8 upload f = f) ∧
      (∀ u, upload { f with name := normalizeFileName f.name } = .ok u →
        handleFilesStep sha1hex8 upload f = { f with url := u, sha := sha1hex8 f.data }) := by
    intro f
    exact ⟨fun s h => handleFilesStep_error sha1hex8 upload f s h,
      fun u h => handleFilesStep_ok sha1hex8 upload f u h⟩
  by_cases hempty : e.file.isEmpty
  · refine ⟨e.file, ?_, ?_, ?_⟩
    · unfold handleFiles
      rw [hextra]
      simp only [hempty, if_true]
      rw [← hextra]
    · unfold handleFiles
      rw [hextra]
      simp only [hempty, if_true]
    · rw [List.isEmpty_iff.mp hempty]
      exact List.Forall₂.nil
  · refine ⟨e.file.map (handleFilesStep sha1hex8 upload), ?_, ?_, ?_⟩
    · unfold handleFiles
      rw [hextra]
      rw [Bool.not_eq_true] at hempty
      simp [hempty]
    · unfold handleFiles
      rw [hextra]
      rw [Bool.not_eq_true] at hempty
      simp [hempty]
    · exact forall2_map_self
        (fun f g =>
          (∀ s, upload { f with name := normalizeFileName f.name } = .error s → g = f) ∧
          (∀ u, upload { f with name := normalizeFileName f.name } = .ok u →
            g = { f with url := u, sha := sha1hex8 f.data }))
        (handleFilesStep sha1hex8 upload) hpt e.file

/-- C6 witness: the amended theorem applied to the sample envelope whose first
upload fails. -/
theorem C6_upload_failure_isolation_witness :
    ∃ files2,
      handleFiles (fun _ => "00000000") (some uploadC6) msgC6 =
        { msgC6 with extra := some { file := files2 } } ∧
      (handleFiles (fun _ => "00000000") (some uploadC6) msgC6).text = msgC6.text ∧
      List.Forall₂ (fun (f g : FileInfo) =>
        (∀ s, uploadC6 { f with name := normalizeFileName f.name } = .error s → g = f) ∧
        (∀ u, uploadC6 { f with name := normalizeFileName f.name } = .ok u →
          g = { f with url := u, sha := (fun _ => "00000000") f.data }))
        [fbadC6, fgoodC6] files2 :=
  C6_upload_failure_isolation (fun _ => "00000000") uploadC6 msgC6
    { file := [fbadC6, fgoodC6] } rfl

/-- Router.handleEventFailure scan over one gateway: the first bridge whose
account equals the envelope account. -/
def findFailedBridge (msg : Message) : List (List Bridge) → Option Bridge
  | [] => none
  | gw :: rest =>
    match gw.find? (fun br => msg.account == br.account) with
    | some br => some br
    | none => findFailedBridge msg rest

/-- Router.handleEventFailure (gateway/handlers.go): for a failure envelope,
scan the gateways and their bridges and reconnect the first bridge whose
account matches, then return. The returned list holds the bridges a reconnect
was spawned for. Go maps have no fixed iteration order; the list order stands
for the order the ranges happen to take. -/
def handleEventFailure (gateways : List (List Bridge)) (msg : Message) : List Bridge :=
  if msg.event != EventFailure then []
  else
    match findFailedBridge msg gateways with
    | some br => [br]
    | none => []

/-- findFailedBridge is the first match over the concatenated bridge lists. -/
theorem findFailedBridge_eq_find (msg : Message) :
    ∀ gateways : List (List Bridge),
      findFailedBridge msg gateways =
        (gateways.flatMap id).find? (fun br => msg.account == br.account)
  | [] => rfl
  | gw :: rest => by
    unfold findFailedBridge
    rw [List.flatMap_cons, List.find?_append]
    simp only [id_eq]
    cases h : List.find? (fun br => msg.account == br.account) gw with
    | none => simpa [h] using findFailedBridge_eq_find msg rest
    | some br => simp [h]

/-- C10: handleEventFailure reconnects at most one bridge; a non-failure
envelope reconnects none; a failure envelope reconnects exactly the first
bridge, in scan order, whose account equals the envelope account. -/
theorem C10_failure_single_reconnect (gateways : List (List Bridge)) (msg : Message) :
    (handleEventFailure gateways msg).length ≤ 1 ∧
    (msg.event ≠ EventFailure → handleEventFailure gateways msg = []) ∧
    (msg.event = EventFailure →
      handleEventFailure gateways msg =
        ((gateways.flatMap id).find? (fun br => msg.account == br.account)).toList) := by
  refine ⟨?_, ?_, ?_⟩
  · unfold handleEventFailure
    split
    · exact Nat.zero_le 1
    · cases findFailedBridge msg gateways <;> simp
  · intro h
    unfold handleEventFailure
    simp [h]
  · intro h
    unfold handleEventFailure
    rw [findFailedBridge_eq_find]
    cases (gateways.flatMap id).find? (fun br => msg.account == br.account) <;> simp [h]

/-- C10 witness: an account present in two gateways gets a single reconnect. -/
theorem C10_failure_single_reconnect_witness :
    handleEventFailure [[{ protocol := "irc", account := "irc.main" }],
        [{ protocol := "irc", account := "irc.main" }]]
      { event := EventFailure, account := "irc.main" } =
      [{ protocol := "irc", account := "irc.main" }] := by
  have h := (C10_failure_single_reconnect
    [[{ protocol := "irc", account := "irc.main" }],
      [{ protocol := "irc", account := "irc.main" }]]
    { event := EventFailure, account := "irc.main" }).2.2 rfl
  rw [h]
  decide

/-- httpError (bridge/matrix): the parsed JSON body of a mautrix HTTPError.
The retry harness only reads errcode and retry_after_ms. -/
structure HttpError where
  errcode : String := ""
  err : String := ""
  retryAfterMs : Nat := 0
deriving Repr, DecidableEq

/-- Bmatrix.handleRatelimit: the backoff duration (in milliseconds) and whether
the error is the Matrix rate-limit signal. -/
def handleRatelimit (e : HttpError) : Nat × Bool :=
  if e.errcode != "M_LIMIT_EXCEEDED" then (0, false)
  else (e.retryAfterMs, true)

/-- Observable steps of Bmatrix.retry: taking and releasing the rate mutex,
invoking the wrapped call (numbered), and sleeping a backoff. -/
inductive RetryEvent where
  | lock : RetryEvent
  | call : Nat → RetryEvent
  | sleep : Nat → RetryEvent
  | unlock : RetryEvent
deriving Repr, DecidableEq

/-- The loop of Bmatrix.retry. `s k` is the outcome of the k-th invocation of
the wrapped call f (none models a nil error). The loop in Go is unbounded;
`fuel` bounds how many iterations are observed, and a second component of none
means the loop was still running after `fuel` iterations. Yields the event
trace and, when the loop returned, the returned error. -/
def retryAux (s : Nat → Option HttpError) : Nat → Nat → List RetryEvent × Option (Option HttpError)
  | 0, _ => ([], none)
  | fuel + 1, k =>
    match s k with
    | none => ([RetryEvent.call k], some none)
    | some e =>
      if (handleRatelimit e).2 then
        let r := retryAux s fuel (k + 1)
        (RetryEvent.call k :: RetryEvent.sleep (handleRatelimit e).1 :: r.1, r.2)
      else ([RetryEvent.call k], some (some e))

/-- Bmatrix.retry: the rate mutex is taken before the loop and released, by the
deferred unlock, when the loop returns. -/
def retry (s : Nat → Option HttpError) (fuel : Nat) : List RetryEvent × Option (Option HttpError) :=
  let r := retryAux s fuel 0
  (RetryEvent.lock :: r.1 ++ (if r.2.isSome then [RetryEvent.unlock] else []), r.2)

/-- When the rate-limit flag is set, the backoff is exactly retry_after_ms. -/
theorem handleRatelimit_rl (e : HttpError) (h : (handleRatelimit e).2 = true) :
    handleRatelimit e = (e.retryAfterMs, true) := by
  unfold handleRatelimit at *
  by_cases hc : e.errcode != "M_LIMIT_EXCEEDED"
  · rw [if_pos hc] at h
    exact absurd h (by simp)
  · rw [if_neg hc]

/-- Unfolding of the loop at a rate-limited call. -/
theorem retryAux_rl (s : Nat → Option HttpError) (fuel k : Nat) (e : HttpError)
    (he : s k = some e) (hrl : (handleRatelimit e).2 = true) :
    retryAux s (fuel + 1) k =
      (RetryEvent.call k :: RetryEvent.sleep (handleRatelimit e).1 :: (retryAux s fuel (k + 1)).1,
        (retryAux s fuel (k + 1)).2) := by
  show (match s k with
    | none => ([RetryEvent.call k], some none)
    | some e =>
      if (handleRatelimit e).2 then
        (RetryEvent.call k :: RetryEvent.sleep (handleRatelimit e).1 :: (retryAux s fuel (k + 1)).1,
          (retryAux s fuel (k + 1)).2)
      else ([RetryEvent.call k], some (some e))) = _
  rw [he]
  simp [hrl]

/-- Unfolding of the loop at a successful call. -/
theorem retryAux_done_ok (s : Nat → Option HttpError) (fuel k : Nat)
    (he : s k = none) :
    retryAux s (fuel + 1) k = ([RetryEvent.call k], some none) := by
  show (match s k with
    | none => ([RetryEvent.call k], some none)
    | some e =>
      if (handleRatelimit e).2 then
        (RetryEvent.call k :: RetryEvent.sleep (handleRatelimit e).1 :: (retryAux s fuel (k + 1)).1,
          (retryAux s fuel (k + 1)).2)
      else ([RetryEvent.call k], some (some e))) = _
  rw [he]

/-- Unfolding of the loop at a non-rate-limit error. -/
theorem retryAux_done_err (s : Nat → Option HttpError) (fuel k : Nat) (e : HttpError)
    (he : s k = some e) (hrl : (handleRatelimit e).2 = false) :
    retryAux s (fuel + 1) k = ([RetryEvent.call k], some (some e)) := by
  show (match s k with
    | none => ([RetryEvent.call k], some none)
    | some e =>
      if (handleRatelimit e).2 then
        (RetryEvent.call k :: RetryEvent.sleep (handleRatelimit e).1 :: (retryAux s fuel (k + 1)).1,
          (retryAux s fuel (k + 1)).2)
      else ([RetryEvent.call k], some (some e))) = _
  rw [he]
  simp [hrl]

/-- Skipping a block of rate-limited calls does not change the loop result. -/
theorem retryAux_skip (s : Nat → Option HttpError) :
    ∀ n k fuel,
      (∀ j, j < n → ∃ e, s (k + j) = some e ∧ (handleRatelimit e).2 = true) →
      (retryAux s (n + fuel) k).2 = (retryAux s fuel (k + n)).2 := by
  intro n
  induction n with
  | zero => intro k fuel _; simp
  | succ m ih =>
    intro k fuel h
    obtain ⟨e, he, hrl⟩ := h 0 (Nat.succ_pos m)
    rw [Nat.add_zero] at he
    have harith : m + 1 + fuel = (m + fuel) + 1 := by omega
    rw [harith, retryAux_rl s (m + fuel) k e he hrl]
    have ih2 := ih (k + 1) fuel (fun j hj => by
      obtain ⟨e2, he2, hrl2⟩ := h (j + 1) (by omega)
      exact ⟨e2, by rw [show k + 1 + j = k + (j + 1) by omega]; exact he2, hrl2⟩)
    rw [show (RetryEvent.call k :: RetryEvent.sleep (handleRatelimit e).1 ::
        (retryAux s (m + fuel) (k + 1)).1,
        (retryAux s (m + fuel) (k + 1)).2).2 = (retryAux s (m + fuel) (k + 1)).2 from rfl,
      ih2, show k + 1 + m = k + (m + 1) by omega]

/-- With every observed call rate-limited, the loop has not returned. -/
theorem retryAux_exhaust (s : Nat → Option HttpError) :
    ∀ n k,
      (∀ j, j < n → ∃ e, s (k + j) = some e ∧ (handleRatelimit e).2 = true) →
      (retryAux s n k).2 = none := by
  intro n
  induction n with
  | zero => intro k _; rfl
  | succ m ih =>
    intro k h
    obtain ⟨e, he, hrl⟩ := h 0 (Nat.succ_pos m)
    rw [Nat.add_zero] at he
    unfold retryAux
    rw [he]
    simp only [hrl, if_true]
    exact ih (k + 1) (fun j hj => by
      obtain ⟨e2, he2, hrl2⟩ := h (j + 1) (by omega)
      exact ⟨e2, by rw [show k + 1 + j = k + (j + 1) by omega]; exact he2, hrl2⟩)

/-- Each rate-limited call before the terminal one leaves its requested sleep
in the trace. -/
theorem retryAux_sleep_mem (s : Nat → Option HttpError) :
    ∀ n k fuel,
      (∀ j, j < n → ∃ e, s (k + j) = some e ∧ (handleRatelimit e).2 = true) →
      ∀ j, j < n → ∀ e, s (k + j) = some e →
        RetryEvent.sleep e.retryAfterMs ∈ (retryAux s (n + fuel) k).1 := by
  intro n
  induction n with
  | zero => intro k fuel _ j hj; omega
  | succ m ih =>
    intro k fuel h j hj e hje
    obtain ⟨e0, he0, hrl0⟩ := h 0 (Nat.succ_pos m)
    rw [Nat.add_zero] at he0
    have harith : m + 1 + fuel = (m + fuel) + 1 := by omega
    rw [harith]
    unfold retryAux
    rw [he0]
    simp only [hrl0, if_true]
    cases j with
    | zero =>
      rw [Nat.add_zero, he0] at hje
      obtain rfl := Option.some.inj hje
      rw [handleRatelimit_rl _ hrl0]
      exact List.mem_cons_of_mem _ (List.mem_cons_self _ _)
    | succ j2 =>
      have hmem := ih (k + 1) fuel (fun i hi => by
          obtain ⟨e2, he2, hrl2⟩ := h (i + 1) (by omega)
          exact ⟨e2, by rw [show k + 1 + i = k + (i + 1) by omega]; exact he2, hrl2⟩)
        j2 (by omega) e (by rw [show k + 1 + j2 = k + (j2 + 1) by omega]; exact hje)
      exact List.mem_cons_of_mem _ (List.mem_cons_of_mem _ hmem)

/-- C2: the Matrix retry harness takes the rate mutex first and releases it
last; while the parsed errcode of every error is M_LIMIT_EXCEEDED it sleeps
exactly retry_after_ms per error and retries without bound (for every fuel
bound not past the rate-limited block the loop has not returned); the first
non-rate-limit error is returned as is with no further retry; a success ends
the loop with a nil error. -/
theorem C2_retry_harness (s : Nat → Option HttpError) (n : Nat)
    (hpre : ∀ j, j < n → ∃ e, s j = some e ∧ (handleRatelimit e).2 = true) :
    (∀ e, (handleRatelimit e).2 = true ↔ e.errcode = "M_LIMIT_EXCEEDED") ∧
    (∀ e, (handleRatelimit e).2 = true → (handleRatelimit e).1 = e.retryAfterMs) ∧
    (s n = none → ∀ fuel, n < fuel → (retry s fuel).2 = some none) ∧
    (∀ e, s n = some e → (handleRatelimit e).2 = false →
      ∀ fuel, n < fuel → (retry s fuel).2 = some (some e)) ∧
    (∀ fuel, fuel ≤ n → (retry s fuel).2 = none) ∧
    (∀ fuel, n ≤ fuel → ∀ j, j < n → ∀ e, s j = some e →
      RetryEvent.sleep e.retryAfterMs ∈ (retry s fuel).1) ∧
    (∀ fuel, (retry s fuel).1.head? = some RetryEvent.lock) ∧
    (∀ fuel, ((retry s fuel).2).isSome →
      (retry s fuel).1.getLast? = some RetryEvent.unlock) := by
  have hpre0 : ∀ j, j < n → ∃ e, s (0 + j) = some e ∧ (handleRatelimit e).2 = true := by
    intro j hj
    rw [Nat.zero_add]
    exact hpre j hj
  refine ⟨?_, ?_, ?_, ?_, ?_, ?_, ?_, ?_⟩
  · intro e
    unfold handleRatelimit
    by_cases hc : e.errcode = "M_LIMIT_EXCEEDED" <;> simp [hc]
  · intro e h
    rw [handleRatelimit_rl e h]
  · intro hs fuel hfuel
    unfold retry
    simp only
    rw [show fuel = n + (fuel - n) by omega, retryAux_skip s n 0 (fuel - n) hpre0,
      Nat.zero_add, show fuel - n = (fuel - n - 1) + 1 by omega]
    unfold retryAux
    rw [hs]
  · intro e hs hnrl fuel hfuel
    unfold retry
    simp only
    rw [show fuel = n + (fuel - n) by omega, retryAux_skip s n 0 (fuel - n) hpre0,
      Nat.zero_add, show fuel - n = (fuel - n - 1) + 1 by omega]
    unfold retryAux
    rw [hs]
    simp [hnrl]
  · intro fuel hfuel
    unfold retry
    simp only
    exact retryAux_exhaust s fuel 0 (fun j hj => hpre0 j (by omega))
  · intro fuel hfuel j hj e hje
    unfold retry
    simp only
    have hmem := retryAux_sleep_mem s n 0 (fuel - n) hpre0 j hj e
      (by rw [Nat.zero_add]; exact hje)
    rw [show n + (fuel - n) = fuel by omega] at hmem
    exact List.mem_cons_of_mem _ (List.mem_append_left _ hmem)
  · intro fuel
    unfold retry
    rfl
  · intro fuel hsome
    unfold retry at *
    simp only at hsome ⊢
    rw [hsome]
    have hif : (if (true = true) then [RetryEvent.unlock] else []) = [RetryEvent.unlock] := rfl
    rw [hif, List.getLast?_append_cons]
    rfl

/-- The call outcomes for the C2 witness: one rate-limited error, then
success. -/
def retryCallsW : Nat → Option HttpError :=
  fun k => if k = 0 then some { errcode := "M_LIMIT_EXCEEDED", err := "limited", retryAfterMs := 250 } else none

/-- C2 witness: with one rate-limited call followed by a success, two
iterations end the loop with a nil error. -/
theorem C2_retry_harness_witness : (retry retryCallsW 2).2 = some none := by
  have h := (C2_retry_harness retryCallsW 1 (fun j hj => by
    have hj0 : j = 0 := Nat.lt_one_iff.mp hj
    subst hj0
    exact ⟨{ errcode := "M_LIMIT_EXCEEDED", err := "limited", retryAfterMs := 250 },
      rfl, by decide⟩)).2.2.1
  exact h rfl 2 (by omega)

/-- The slice of the Go regexp API that extractNick touches: MatchString, and
the head of FindAllStringSubmatch(text, 1) — none when there is no match. -/
structure GoRegexp where
  matchString : String → Bool
  findOneSubmatch : String → Option (List String)

/-- Scan a character list, removing the first occurrence of `m` when there is
one: strings.Replace(text, m, new-empty, 1). -/
def removeFirstAux (m : List Char) : List Char → List Char
  | [] => []
  | c :: rest =>
    if m.isPrefixOf (c :: rest) then (c :: rest).drop m.length
    else c :: removeFirstAux m rest

/-- strings.Replace(text, m, empty replacement, 1). -/
def replaceFirst (text m : String) : String := ⟨removeFirstAux m.data text.data⟩

/-- extractNick (gateway/handlers.go), over an abstract regexp engine
`compile` standing for regexp.Compile. Yields the updated username and text
and the compile error if any. -/
def extractNick (compile : String → Except String GoRegexp)
    (search extract username text : String) : String × String × Option String :=
  match compile search with
  | .error err => (username, text, some err)
  | .ok re =>
    if re.matchString username then
      match compile extract with
      | .error err => (username, text, some err)
      | .ok re2 =>
        match re2.findOneSubmatch text with
        | some res =>
          if res.length = 2 then
            (res.getD 1 "", replaceFirst text (res.getD 0 ""), none)
          else (username, text, none)
        | none => (username, text, none)
    else (username, text, none)

/-- Gateway.handleExtractNicks: fold the ExtractNicks pairs over the envelope's
username and text, stopping at the first compile error (which is logged). -/
def handleExtractNicks (compile : String → Except String GoRegexp) :
    List (String × String) → String → String → String × String
  | [], username, text => (username, text)
  | (search, extract) :: rest, username, text =>
    let r := extractNick compile search extract username text
    match r.2.2 with
    | some _ => (r.1, r.2.1)
    | none => handleExtractNicks compile rest r.1 r.2.1

/-- A compile error leaves username and text untouched. -/
theorem extractNick_error (compile : String → Except String GoRegexp)
    (search extract username text err : String)
    (h : (extractNick compile search extract username text).2.2 = some err) :
    extractNick compile search extract username text = (username, text, some err) := by
  unfold extractNick at h ⊢
  cases hc : compile search with
  | error e2 =>
    rw [hc] at h
    obtain rfl : e2 = err := by simpa using h
    rfl
  | ok re =>
    rw [hc] at h
    by_cases hm : re.matchString username
    · cases hc2 : compile extract with
      | error e3 =>
        rw [hc2] at h
        obtain rfl : e3 = err := by simpa [hm] using h
        simp [hm]
      | ok re2 =>
        exfalso
        rw [hc2] at h
        simp only [hm, if_true] at h
        cases hf : re2.findOneSubmatch text with
        | none =>
          rw [hf] at h
          simp at h
        | some res =>
          rw [hf] at h
          by_cases hl : res.length = 2 <;> simp [hl] at h
    · exfalso
      simp [hm] at h

/-- C4: when the match regex matches the username and the extract regex finds
a match in the text with exactly one capture group, extractNick returns the
capture group as the username and the text with the first occurrence of the
matched span removed; a compile error of either regex is returned with
username and text unchanged; and handleExtractNicks stops at the first pair
whose extractNick reports an error, keeping the values it returned. -/
theorem C4_extractNick (compile : String → Except String GoRegexp)
    (search extract username text : String) :
    (∀ re re2 res, compile search = .ok re → re.matchString username = true →
      compile extract = .ok re2 → re2.findOneSubmatch text = some res →
      res.length = 2 →
      extractNick compile search extract username text =
        (res.getD 1 "", replaceFirst text (res.getD 0 ""), none)) ∧
    (∀ err, compile search = .error err →
      extractNick compile search extract username text = (username, text, some err)) ∧
    (∀ re err, compile search = .ok re → re.matchString username = true →
      compile extract = .error err →
      extractNick compile search extract username text = (username, text, some err)) ∧
    (∀ err rest, (extractNick compile search extract username text).2.2 = some err →
      handleExtractNicks compile ((search, extract) :: rest) username text =
        (username, text)) := by
  refine ⟨?_, ?_, ?_, ?_⟩
  · intro re re2 res hc hm hc2 hf hl
    unfold extractNick
    rw [hc]
    simp only [hm, if_true]
    rw [hc2]
    simp only [hf, hl, if_true]
  · intro err hc
    unfold extractNick
    rw [hc]
  · intro re err hc hm hc2
    unfold extractNick
    rw [hc]
    simp only [hm, if_true]
    rw [hc2]
  · intro err rest h
    unfold handleExtractNicks
    rw [extractNick_error compile search extract username text err h]

/-- The lazy closing-bracket scan for the literal pattern of scenario S-6:
given the characters after the first content character, find the earliest
closing angle bracket, the content staying newline-free (a dot does not match
a newline). -/
def angleClose : List Char → Option (List Char × List Char)
  | [] => none
  | c :: rest =>
    if c = '>' then some ([], rest)
    else if c = '\n' then none
    else (angleClose rest).map (fun p => (c :: p.1, p.2))

/-- Leftmost match of the literal pattern open-bracket (.+?) close-bracket:
returns the whole matched span and the capture group. -/
def findAngle : List Char → Option (List Char × List Char)
  | [] => none
  | c :: rest =>
    if c = '<' then
      match rest with
      | [] => none
      | c1 :: rest1 =>
        if c1 = '\n' then findAngle rest
        else
          match angleClose rest1 with
          | some p => some ('<' :: c1 :: (p.1 ++ ['>']), c1 :: p.1)
          | none => findAngle rest
    else findAngle rest

/-- MatchString of the literal pattern dot-star-dash-bot-dollar: a match must
end at the end of the text with the four characters -bot, and the dot-star can
always be taken empty, so it matches exactly the strings ending in -bot. -/
def endsWithBot (s : String) : Bool :=
  List.isPrefixOf ['t', 'o', 'b', '-'] s.data.reverse

/-- The whole span of the leftmost match of the dot-star-dash-bot-dollar
pattern: from just after the last newline in the prefix to the end. -/
def botWholeMatch (s : String) : List Char :=
  let n := s.data.length - 4
  ((s.data.take n).reverse.takeWhile (fun c => c ≠ '\n')).reverse ++ s.data.drop n

/-- RE2 semantics of the literal config pattern dot-star-dash-bot-dollar of
scenario S-6 (zero capture groups, so every submatch list has length one). -/
def reBot : GoRegexp where
  matchString := endsWithBot
  findOneSubmatch := fun s => if endsWithBot s then some [⟨botWholeMatch s⟩] else none

/-- RE2 semantics of the literal config pattern open-bracket (.+?)
close-bracket of scenario S-6. -/
def reAngle : GoRegexp where
  matchString := fun s => (findAngle s.data).isSome
  findOneSubmatch := fun s => (findAngle s.data).map (fun p => [⟨p.1⟩, ⟨p.2⟩])

/-- A concrete regexp.Compile covering the two literal patterns of scenario
S-6; every other pattern reports a compile error. -/
def demoCompile : String → Except String GoRegexp := fun p =>
  if p = ".*-bot$" then .ok reBot
  else if p = "<(.+?)>" then .ok reAngle
  else .error ("error parsing regexp: " ++ p)

/-- C4 witness: scenario S-6. The rule pair applied to username relay-bot and
text with a bracketed alice yields username alice with the bracketed span
removed from the text, both through extractNick and through
handleExtractNicks; and a bad pattern stops handleExtractNicks unchanged. -/
theorem C4_extractNick_witness :
    extractNick demoCompile ".*-bot$" "<(.+?)>" "relay-bot" "<alice> hello" =
      ("alice", " hello", none) ∧
    handleExtractNicks demoCompile [("(", "x")] "relay-bot" "<alice> hello" =
      ("relay-bot", "<alice> hello") := by
  constructor
  · have h := (C4_extractNick demoCompile ".*-bot$" "<(.+?)>" "relay-bot" "<alice> hello").1
      reBot reAngle ["<alice>", "alice"] rfl (by decide) rfl (by decide) (by decide)
    rw [h]
    decide
  · exact (C4_extractNick demoCompile "(" "x" "relay-bot" "<alice> hello").2.2.2
      "error parsing regexp: (" [] (by decide)

/-- NicknameCacheEntry (bridge/matrix): a cached display name and when it was
stored, in the nanosecond units of Go durations. -/
structure NicknameCacheEntry where
  displayName : String
  lastUpdated : Nat
deriving Repr, DecidableEq

/-- A Matrix user ID: the localpart (the cache key) and the server part; fmt
prints the full at-localpart-colon-server form into the conflict suffix. -/
structure MatrixUserID where
  localpart : String
  server : String
deriving Repr, DecidableEq

/-- The mxid string as formatted into the conflict suffix. -/
def MatrixUserID.full (m : MatrixUserID) : String :=
  "@" ++ m.localpart ++ ":" ++ m.server

/-- The eviction age of the nickname cache: ten minutes in nanoseconds. -/
def tenMinutes : Nat := 600000000000

/-- Insert-or-replace on the association-list model of the Go map. -/
def mapInsert (l : List (String × NicknameCacheEntry)) (k : String)
    (v : NicknameCacheEntry) : List (String × NicknameCacheEntry) :=
  if l.any (fun p => p.1 == k) then l.map (fun p => if p.1 == k then (k, v) else p)
  else l ++ [(k, v)]

/-- Bmatrix.cacheDisplayName (bridge/matrix/helpers.go): rename every entry
already carrying the display name by appending the mxid in parentheses,
collect the keys of entries older than ten minutes, rename the incoming name
the same way when such a conflict exists, delete the stale keys, store the new
entry under the localpart with the current time and return the stored name. -/
def cacheDisplayName (now : Nat) (cache : List (String × NicknameCacheEntry))
    (mxid : MatrixUserID) (displayName : String) :
    String × List (String × NicknameCacheEntry) :=
  let conflict := cache.any (fun p => p.2.displayName == displayName)
  let renamed := cache.map (fun p =>
    if p.2.displayName == displayName then
      (p.1, { p.2 with displayName := displayName ++ " (" ++ mxid.full ++ ")" })
    else p)
  let toDelete := (cache.filter (fun p => tenMinutes < now - p.2.lastUpdated)).map Prod.fst
  let newName := if conflict then displayName ++ " (" ++ mxid.full ++ ")" else displayName
  let afterDelete := renamed.filter (fun p => !(toDelete.any (fun k2 => k2 == p.1)))
  (newName, mapInsert afterDelete mxid.localpart { displayName := newName, lastUpdated := now })

/-- Membership in mapInsert: the inserted pair, or an untouched pair of the
base list with a different key. -/
theorem mem_mapInsert (l : List (String × NicknameCacheEntry)) (k : String)
    (v : NicknameCacheEntry) (q : String × NicknameCacheEntry)
    (hq : q ∈ mapInsert l k v) : q = (k, v) ∨ (q ∈ l ∧ q.1 ≠ k) := by
  unfold mapInsert at hq
  by_cases hany : l.any (fun p => p.1 == k)
  · rw [if_pos hany] at hq
    obtain ⟨p, hp, heq⟩ := List.mem_map.mp hq
    by_cases hk : p.1 == k
    · rw [if_pos hk] at heq
      exact Or.inl heq.symm
    · rw [if_neg hk] at heq
      refine Or.inr ⟨heq ▸ hp, ?_⟩
      rw [← heq]
      simpa using hk
  · rw [if_neg hany] at hq
    rcases List.mem_append.mp hq with hin | hone
    · refine Or.inr ⟨hin, ?_⟩
      rw [List.any_eq_true] at hany
      push_neg at hany
      have := hany q hin
      simpa using this
    · exact Or.inl (by simpa using hone)

/-- The inserted pair is a member of mapInsert. -/
theorem mem_mapInsert_self (l : List (String × NicknameCacheEntry)) (k : String)
    (v : NicknameCacheEntry) : (k, v) ∈ mapInsert l k v := by
  unfold mapInsert
  by_cases hany : l.any (fun p => p.1 == k)
  · rw [if_pos hany]
    rw [List.any_eq_true] at hany
    obtain ⟨p, hp, hk⟩ := hany
    exact List.mem_map.mpr ⟨p, hp, by rw [if_pos hk]⟩
  · rw [if_neg hany]
    exact List.mem_append.mpr (Or.inr (List.mem_singleton.mpr rfl))

/-- With pairwise distinct keys, a key determines the pair. -/
theorem eq_of_nodup_keys :
    ∀ l : List (String × NicknameCacheEntry), (l.map Prod.fst).Nodup →
      ∀ p q : String × NicknameCacheEntry, p ∈ l → q ∈ l → p.1 = q.1 → p = q
  | [], _, p, q, hp, _, _ => absurd hp (List.not_mem_nil p)
  | a :: l, hnd, p, q, hp, hq, heq => by
    rw [List.map_cons, List.nodup_cons] at hnd
    rcases List.mem_cons.mp hp with hpa | hpl <;> rcases List.mem_cons.mp hq with hqa | hql
    · rw [hpa, hqa]
    · exfalso
      apply hnd.1
      rw [hpa] at heq
      rw [heq]
      exact List.mem_map.mpr ⟨q, hql, rfl⟩
    · exfalso
      apply hnd.1
      rw [hqa] at heq
      rw [← heq]
      exact List.mem_map.mpr ⟨p, hpl, rfl⟩
    · exact eq_of_nodup_keys l hnd.2 p q hpl hql heq

/-- C9: after every cacheDisplayName write, each remaining entry is at most
ten minutes old (older entries are evicted on the write), and when an existing
entry already holds the incoming display name, the newly stored entry and
every surviving conflicting entry carry the display name with the mxid
appended in parentheses. -/
theorem C9_nickname_cache (now : Nat) (cache : List (String × NicknameCacheEntry))
    (mxid : MatrixUserID) (displayName : String)
    (hkeys : (cache.map Prod.fst).Nodup) :
    (∀ q ∈ (cacheDisplayName now cache mxid displayName).2,
      now - q.2.lastUpdated ≤ tenMinutes) ∧
    (∀ p ∈ cache, p.2.displayName = displayName →
      ((mxid.localpart,
        ({ displayName := displayName ++ " (" ++ mxid.full ++ ")", lastUpdated := now } :
          NicknameCacheEntry)) ∈ (cacheDisplayName now cache mxid displayName).2) ∧
      (∀ q ∈ (cacheDisplayName now cache mxid displayName).2,
        q.1 = p.1 → p.1 ≠ mxid.localpart →
        q.2.displayName = displayName ++ " (" ++ mxid.full ++ ")")) := by
  constructor
  · intro q hq
    unfold cacheDisplayName at hq
    simp only at hq
    rcases mem_mapInsert _ _ _ q hq with hnew | ⟨hmem, _⟩
    · rw [hnew]
      simp
    · rw [List.mem_filter] at hmem
      obtain ⟨hren, hkeep⟩ := hmem
      obtain ⟨p, hp, hqp⟩ := List.mem_map.mp hren
      have hlast : q.2.lastUpdated = p.2.lastUpdated := by
        rw [← hqp]
        by_cases hdn : p.2.displayName == displayName
        · rw [if_pos hdn]
        · rw [if_neg hdn]
      have hkey : q.1 = p.1 := by
        rw [← hqp]
        by_cases hdn : p.2.displayName == displayName
        · rw [if_pos hdn]
        · rw [if_neg hdn]
      by_contra hgt
      push_neg at hgt
      have hstale : p ∈ cache.filter (fun p => tenMinutes < now - p.2.lastUpdated) := by
        rw [List.mem_filter]
        exact ⟨hp, by rw [← hlast]; simpa using hgt⟩
      have hdel : (((cache.filter (fun p => tenMinutes < now - p.2.lastUpdated)).map
          Prod.fst).any (fun k2 => k2 == q.1)) = true := by
        rw [List.any_eq_true]
        exact ⟨p.1, List.mem_map.mpr ⟨p, hstale, rfl⟩, by simp [hkey]⟩
      rw [hdel] at hkeep
      simp at hkeep
  · intro p hp hdn
    have hconflict : cache.any (fun r => r.2.displayName == displayName) = true := by
      rw [List.any_eq_true]
      exact ⟨p, hp, by simp [hdn]⟩
    constructor
    · unfold cacheDisplayName
      simp only [hconflict, if_true]
      exact mem_mapInsert_self _ _ _
    · intro q hq hqkey hplocal
      unfold cacheDisplayName at hq
      simp only [hconflict, if_true] at hq
      rcases mem_mapInsert _ _ _ q hq with hnew | ⟨hmem, hqk⟩
      · exfalso
        apply hplocal
        rw [← hqkey, hnew]
      · rw [List.mem_filter] at hmem
        obtain ⟨hren, _⟩ := hmem
        obtain ⟨r, hr, hqr⟩ := List.mem_map.mp hren
        have hrkey : r.1 = p.1 := by
          rw [← hqkey, ← hqr]
          by_cases hdr : r.2.displayName == displayName
          · rw [if_pos hdr]
          · rw [if_neg hdr]
        have hrp : r = p := eq_of_nodup_keys cache hkeys r p hr hp hrkey
        rw [← hqr, hrp, if_pos (by simp [hdn])]

/-- C9 witness: a fresh conflicting entry under another key survives renamed,
and the new entry is stored with the mxid suffix. -/
theorem C9_nickname_cache_witness :
    (∀ q ∈ (cacheDisplayName 5 [("bob", { displayName := "Alice", lastUpdated := 3 })]
        { localpart := "alice2", server := "m.org" } "Alice").2,
      5 - q.2.lastUpdated ≤ tenMinutes) ∧
    ("alice2",
      ({ displayName := "Alice (@alice2:m.org)", lastUpdated := 5 } : NicknameCacheEntry)) ∈
      (cacheDisplayName 5 [("bob", { displayName := "Alice", lastUpdated := 3 })]
        { localpart := "alice2", server := "m.org" } "Alice").2 := by
  have h := C9_nickname_cache 5 [("bob", { displayName := "Alice", lastUpdated := 3 })]
    { localpart := "alice2", server := "m.org" } "Alice" (by simp)
  refine ⟨h.1, ?_⟩
  have h2 := (h.2 ("bob", { displayName := "Alice", lastUpdated := 3 })
    (List.mem_singleton.mpr rfl) rfl).1
  simpa [MatrixUserID.full] using h2

end Matterbridge
